import Mathlib

/-!
Shallow embedding of the Manufacturing ERP core
(`src/models/BOM_management.py` and `src/models/production_planning.py`).

Monetary amounts, quantities and durations are modelled as rationals (the
source uses Python floats; all the formulas at stake are exact field
arithmetic).  Datetimes are modelled as rational timestamps measured in
hours, so that adding a duration of `d` hours to a timestamp is `t + d`.
Record-store lookups (`search`, `browse`) are modelled over explicit lists
of records, with records identified by their `id` field.
-/

namespace ERP

/-- A work center (`mrp.workcenter`); `costs_hour` is its hourly cost. -/
structure Workcenter where
  costs_hour : ℚ
  deriving DecidableEq, Repr

/-- A product (`product.product`).  `bom_ids` lists the ids of the BOMs of
this product in record order (`product.bom_ids` in the source); `uom_id`
is the id of its unit of measure. -/
structure Product where
  id : Nat
  name : String
  uom_id : Nat
  standard_price : ℚ
  bom_ids : List Nat
  deriving DecidableEq, Repr

/-- A BOM line (`mrp.bom.line`): a component product with its quantity. -/
structure BomLine where
  product : Product
  product_qty : ℚ
  product_uom_id : Nat
  deriving DecidableEq, Repr

/-- A routing operation (`mrp.routing.workcenter`): `time_cycle` is the
cycle time in minutes, `time_mode_batch` the setup time in minutes, and
`workcenter` the (possibly missing) work center it runs on. -/
structure Operation where
  time_cycle : ℚ
  time_mode_batch : ℚ
  workcenter : Option Workcenter
  deriving DecidableEq, Repr

/-- A bill of materials (`mrp.bom`, extended by `BOMManagement`). -/
structure Bom where
  id : Nat
  display_name : String
  bom_line_ids : List BomLine
  operation_ids : List Operation
  deriving DecidableEq, Repr

/-- The four cost fields that `_compute_costs` writes on a BOM. -/
structure CostFields where
  material_cost : ℚ
  labor_cost : ℚ
  overhead_cost : ℚ
  total_cost : ℚ
  deriving DecidableEq, Repr

/-- `BOMManagement._compute_costs` (BOM_management.py:539-564): material
cost sums `product_qty * standard_price` over lines whose product and
quantity are truthy; labor cost sums `time_cycle * costs_hour / 60` over
operations with a truthy `time_cycle` and a present work center; overhead
is 20% of material plus labor; total is the sum of the three. -/
def compute_costs (bom : Bom) : CostFields :=
  let material_cost := bom.bom_line_ids.foldl
    (fun acc line =>
      if line.product_qty ≠ 0 then acc + line.product_qty * line.product.standard_price
      else acc) 0
  let labor_cost := bom.operation_ids.foldl
    (fun acc op =>
      if op.time_cycle ≠ 0 then
        match op.workcenter with
        | some wc => acc + op.time_cycle * wc.costs_hour / 60
        | none => acc
      else acc) 0
  let overhead_cost := (material_cost + labor_cost) * 0.2
  ⟨material_cost, labor_cost, overhead_cost, material_cost + labor_cost + overhead_cost⟩

/-- Record-store lookup of a BOM by id (`self.env['mrp.bom']` access). -/
def findBom (env : List Bom) (i : Nat) : Option Bom :=
  env.find? (fun b => b.id == i)

/-- The child BOM followed from a line (`line.product_id.bom_ids[0]` when
`line.product_id.bom_ids` is non-empty, BOM_management.py:599-600). -/
def childBom (env : List Bom) (line : BomLine) : Option Bom :=
  line.product.bom_ids.head?.bind (findBom env)

/-- One iteration of the `for line in bom.bom_line_ids` loop inside
`get_level_recursive`: `rec` is the recursive call at the remaining fuel.
The accumulator carries the running `level` and the shared mutable
`processed_boms` set; `none` signals fuel exhaustion. -/
def levelStep (env : List Bom) (rec : List Nat → Bom → Nat → Option (Nat × List Nat))
    (cur : Nat) (acc : Option (Nat × List Nat)) (line : BomLine) : Option (Nat × List Nat) :=
  match acc with
  | none => none
  | some (level, proc) =>
    match childBom env line with
    | none => some (level, proc)
    | some child =>
      match rec proc child (cur + 1) with
      | none => none
      | some (clevel, proc') => some (max level clevel, proc')

/-- `get_level_recursive` (BOM_management.py:592-603), fuel-indexed: if the
BOM id was already processed, return `current_level`; otherwise mark it
processed and fold over the lines, recursing into each child BOM at
`current_level + 1` and keeping the max.  `none` means the fuel ran out
(the modelled analogue of unbounded recursion). -/
def get_level_recursive (env : List Bom) : Nat → List Nat → Bom → Nat → Option (Nat × List Nat)
  | 0, _, _, _ => none
  | fuel + 1, processed, bom, cur =>
    if bom.id ∈ processed then some (cur, processed)
    else bom.bom_line_ids.foldl (levelStep env (get_level_recursive env fuel) cur)
      (some (cur, bom.id :: processed))

/-- `_get_bom_levels` (BOM_management.py:587-605): run the recursion from
the BOM at level 0 with an empty `processed_boms` set.  The fuel
`env.length + 1` is enough for every call (proved below), so the `Option`
records that the source's recursion is in fact bounded. -/
def get_bom_levels_opt (env : List Bom) (bom : Bom) : Option Nat :=
  (get_level_recursive env (env.length + 1) [] bom 0).map (·.1)

/-- Total version of `_get_bom_levels` used by the complexity formula. -/
def get_bom_levels (env : List Bom) (bom : Bom) : Nat :=
  (get_bom_levels_opt env bom).getD 0

/-- `_compute_complexity` (BOM_management.py:566-576):
`|lines| * 1.0 + |operations| * 1.5 + levels * 2.0`. -/
def compute_complexity (env : List Bom) (bom : Bom) : ℚ :=
  (bom.bom_line_ids.length : ℚ) * 1.0 + (bom.operation_ids.length : ℚ) * 1.5
    + (get_bom_levels env bom : ℚ) * 2.0

/-- Modelled from the spec: the claimed `bomDepth` of C4 — "the max
recursion depth reachable by following each line's product to its own BOM
(depth of a leaf = 0, depth of a BOM with a child BOM at depth d = d+1)".
This definition follows the spec's words, not the source; it is the
refinement target the source's `_get_bom_levels` is compared against.
Fuel-indexed because the spec depth is only well defined on acyclic data;
at every acyclic input used below the fuel is ample. -/
def specBomDepth (env : List Bom) : Nat → Bom → Nat
  | 0, _ => 0
  | fuel + 1, bom =>
    bom.bom_line_ids.foldl
      (fun acc line =>
        match childBom env line with
        | none => acc
        | some child => max acc (specBomDepth env fuel child + 1)) 0

/-- ECO lifecycle states (`manufacturing.engineering.change.state`). -/
inductive EcoState
  | draft | review | approved | implemented | rejected | cancelled
  deriving DecidableEq, Repr

/-- Change-line actions (`manufacturing.engineering.change.line.action`). -/
inductive ChangeAction
  | add | remove | modify
  deriving DecidableEq, Repr

/-- An engineering change line (`manufacturing.engineering.change.line`).
`product_uom_id` is the related product unit of measure (possibly unset). -/
structure ChangeLine where
  product : Product
  action : ChangeAction
  current_qty : ℚ
  new_qty : ℚ
  product_uom_id : Option Nat
  deriving DecidableEq, Repr

/-- An engineering change order (`manufacturing.engineering.change`),
restricted to the fields the implement/cancel actions read or write.
`implementation_notes` keeps the timestamp stamped on success. -/
structure Eco where
  name : String
  state : EcoState
  change_line_ids : List ChangeLine
  implementation_notes : Option ℚ
  deriving DecidableEq, Repr

/-- The `UserError` values raised by the ECO actions, structured so that
the product and BOM named in the source's message are visible. -/
inductive EcoError
  | onlyApprovedCanBeImplemented
  | cannotCancelImplemented
  | componentAlreadyExists (product bom : String)
  | componentNotFound (product bom : String)
  | applyFailed (product : String) (inner : EcoError)
  deriving DecidableEq, Repr

/-- `_add_component_to_bom` (BOM_management.py:258-275): fails if a line
for the product already exists, otherwise creates a new line at `new_qty`
with the line's unit of measure or the product's as fallback. -/
def add_component_to_bom (bom : Bom) (line : ChangeLine) : Except EcoError Bom :=
  if bom.bom_line_ids.any (fun bl => bl.product.id == line.product.id) then
    .error (.componentAlreadyExists line.product.name bom.display_name)
  else
    .ok { bom with bom_line_ids := bom.bom_line_ids
      ++ [⟨line.product, line.new_qty, line.product_uom_id.getD line.product.uom_id⟩] }

/-- `_remove_component_from_bom` (BOM_management.py:277-287): fails if no
line for the product exists, otherwise unlinks the first matching line. -/
def remove_component_from_bom (bom : Bom) (line : ChangeLine) : Except EcoError Bom :=
  if bom.bom_line_ids.any (fun bl => bl.product.id == line.product.id) then
    .ok { bom with bom_line_ids :=
      bom.bom_line_ids.eraseP (fun bl => bl.product.id == line.product.id) }
  else
    .error (.componentNotFound line.product.name bom.display_name)

/-- The field update `_modify_component_in_bom` performs on the matched
BOM line: quantity when `new_qty != current_qty`, unit of measure when the
change line carries one. -/
def modifyLineVals (line : ChangeLine) (bl : BomLine) : BomLine :=
  let bl1 := if line.new_qty ≠ line.current_qty then { bl with product_qty := line.new_qty } else bl
  match line.product_uom_id with
  | some u => { bl1 with product_uom_id := u }
  | none => bl1

/-- Replace the first element satisfying `p` by its image under `g`
(the `search(..., limit=1)` plus `write` pattern). -/
def updateFirst (p : α → Bool) (g : α → α) : List α → List α
  | [] => []
  | a :: as => if p a then g a :: as else a :: updateFirst p g as

/-- `_modify_component_in_bom` (BOM_management.py:289-306): fails if no
line for the product exists, otherwise updates the first matching line. -/
def modify_component_in_bom (bom : Bom) (line : ChangeLine) : Except EcoError Bom :=
  if bom.bom_line_ids.any (fun bl => bl.product.id == line.product.id) then
    let newLines := updateFirst (fun bl => bl.product.id == line.product.id)
      (modifyLineVals line) bom.bom_line_ids
    .ok { bom with bom_line_ids := newLines }
  else
    .error (.componentNotFound line.product.name bom.display_name)

/-- Dispatch on the change line's action (BOM_management.py:248-253). -/
def applyChangeLine (bom : Bom) (line : ChangeLine) : Except EcoError Bom :=
  match line.action with
  | .add => add_component_to_bom bom line
  | .remove => remove_component_from_bom bom line
  | .modify => modify_component_in_bom bom line

/-- The `for line in self.change_line_ids` loop of `_apply_changes_to_bom`
(BOM_management.py:246-256): apply the lines in sequence; the first
failure stops the loop, wrapping the error with the originating product's
name ("Error applying change for product %s").  The BOM state reached so
far is kept — the source performs no rollback of already-applied lines. -/
def applyChangeLines : List ChangeLine → Bom → Bom × Option EcoError
  | [], bom => (bom, none)
  | l :: ls, bom =>
    match applyChangeLine bom l with
    | .ok bom' => applyChangeLines ls bom'
    | .error e => (bom, some (.applyFailed l.product.name e))

/-- `_apply_changes_to_bom` (BOM_management.py:241-256), including the
early return on an empty change-line list. -/
def apply_changes_to_bom (eco : Eco) (bom : Bom) : Bom × Option EcoError :=
  if eco.change_line_ids.isEmpty then (bom, none)
  else applyChangeLines eco.change_line_ids bom

/-- `action_implement` (BOM_management.py:204-218): only an approved ECO
may be implemented; on success the state becomes `implemented` and the
notes are stamped with the current time; a failure while applying the
change lines leaves the ECO untouched (the `write` is skipped) but keeps
whatever was already applied to the BOM. -/
def action_implement (eco : Eco) (bom : Bom) (now : ℚ) : Eco × Bom × Option EcoError :=
  if eco.state ≠ .approved then (eco, bom, some .onlyApprovedCanBeImplemented)
  else
    match apply_changes_to_bom eco bom with
    | (bom', none) =>
      ({ eco with state := .implemented, implementation_notes := some now }, bom', none)
    | (bom', some e) => (eco, bom', some e)

/-- `action_cancel` (BOM_management.py:220-226): cancelling an implemented
change order is refused; otherwise the state becomes `cancelled`. -/
def action_cancel (eco : Eco) : Eco × Option EcoError :=
  if eco.state = .implemented then (eco, some .cannotCancelImplemented)
  else ({ eco with state := .cancelled }, none)

/-- Production plan states (`manufacturing.production.plan.state`). -/
inductive PlanState
  | draft | confirmed | scheduled | in_progress | done | cancelled
  deriving DecidableEq, Repr

/-- Scheduling methods (`scheduling_method` selection). -/
inductive SchedMethod
  | fcfs | sjf | priority | critical_path | genetic
  deriving DecidableEq, Repr

/-- A production plan (`manufacturing.production.plan`), restricted to the
fields the scheduler and the duration/efficiency computations use.
`priority` is the numeric value of the `'0'..'3'` selection; datetimes are
rational timestamps in hours. -/
structure Plan where
  id : Nat
  state : PlanState
  priority : Nat
  date_planned : ℚ
  date_start : Option ℚ
  date_end : Option ℚ
  scheduling_method : SchedMethod
  product_qty : ℚ
  bom : Option Bom
  actual_duration : ℚ
  deriving DecidableEq, Repr

/-- `_compute_estimated_duration` (production_planning.py:97-108): with a
linked BOM, sum `setup + cycle * qty` in minutes over its operations and
convert to hours; without one the duration is 0. -/
def compute_estimated_duration (p : Plan) : ℚ :=
  match p.bom with
  | some bom =>
    (bom.operation_ids.foldl
      (fun acc op => acc + (op.time_mode_batch + op.time_cycle * p.product_qty)) 0) / 60
  | none => 0

/-- `_compute_efficiency` (production_planning.py:110-116): the estimated
over actual ratio in percent when both are truthy (non-zero), else 0. -/
def compute_efficiency (p : Plan) : ℚ :=
  if p.actual_duration ≠ 0 ∧ compute_estimated_duration p ≠ 0 then
    compute_estimated_duration p / p.actual_duration * 100
  else 0

/-- `_find_available_time_slot` (production_planning.py:189-192): the slot
always starts at the plan's own planned date and ends `estimated_duration`
hours later; no contention with other plans is consulted. -/
def find_available_time_slot (p : Plan) : ℚ × ℚ :=
  (p.date_planned, p.date_planned + compute_estimated_duration p)

/-- The `plan.write({'date_start': ..., 'date_end': ...})` of the
scheduling loops. -/
def setSlot (q : Plan) (slot : ℚ × ℚ) : Plan :=
  { q with date_start := some slot.1, date_end := some slot.2 }

/-- One iteration of a scheduling loop: write the slot computed from the
snapshot `u` onto the database record with `u`'s id. -/
def scheduleStep (db : List Plan) (u : Plan) : List Plan :=
  db.map (fun q => if q.id = u.id then setSlot q (find_available_time_slot u) else q)

/-- The `order='priority desc, date_planned asc'` ordering of
`_priority_based_scheduling`. -/
def priorityOrder (a b : Plan) : Prop :=
  b.priority < a.priority ∨ (a.priority = b.priority ∧ a.date_planned ≤ b.date_planned)

/-- The `order='estimated_duration asc'` ordering of `_shortest_job_first`. -/
def sjfOrder (a b : Plan) : Prop :=
  compute_estimated_duration a ≤ compute_estimated_duration b

/-- The `order='date_planned asc'` ordering of `_first_come_first_serve`. -/
def fcfsOrder (a b : Plan) : Prop :=
  a.date_planned ≤ b.date_planned

instance : DecidableRel priorityOrder := fun a b => by unfold priorityOrder; infer_instance

instance : DecidableRel sjfOrder := fun a b => by unfold sjfOrder; infer_instance

instance : DecidableRel fcfsOrder := fun a b => by unfold fcfsOrder; infer_instance

/-- The confirmed-plan queue a scheduling policy iterates over:
`self.search([('state', '=', 'confirmed')], order=...)`, modelled as a
filter of the plan table followed by a stable sort for the given order. -/
def confirmedQueue (r : Plan → Plan → Prop) [DecidableRel r] (db : List Plan) : List Plan :=
  List.insertionSort r (db.filter (fun p => p.state == PlanState.confirmed))

/-- Common shape of the three implemented policies
(production_planning.py:155-183): walk the ordered confirmed queue and
write each plan's slot.  The `if available_slot` test always succeeds
because `_find_available_time_slot` always returns a dict. -/
def batchSchedule (r : Plan → Plan → Prop) [DecidableRel r] (db : List Plan) : List Plan :=
  (confirmedQueue r db).foldl scheduleStep db

/-- `_priority_based_scheduling` (production_planning.py:155-163). -/
def priority_based_scheduling (db : List Plan) : List Plan :=
  batchSchedule priorityOrder db

/-- `_shortest_job_first` (production_planning.py:165-173). -/
def shortest_job_first (db : List Plan) : List Plan :=
  batchSchedule sjfOrder db

/-- `_first_come_first_serve` (production_planning.py:175-183). -/
def first_come_first_serve (db : List Plan) : List Plan :=
  batchSchedule fcfsOrder db

/-- `_critical_path_method` (production_planning.py:185-187): falls back
to first-come-first-serve. -/
def critical_path_method (db : List Plan) : List Plan :=
  first_come_first_serve db

/-- `_apply_scheduling_algorithm` (production_planning.py:144-153). -/
def apply_scheduling_algorithm (method : SchedMethod) (db : List Plan) : List Plan :=
  match method with
  | .priority => priority_based_scheduling db
  | .sjf => shortest_job_first db
  | .critical_path => critical_path_method db
  | _ => first_come_first_serve db

/-- `action_schedule` (production_planning.py:127-129): first write
`state = 'scheduled'` on the invoked plan, then run the configured batch
policy, whose confirmed-queue search no longer matches the invoked plan. -/
def action_schedule (db : List Plan) (p : Plan) : List Plan :=
  let db' := db.map (fun q => if q.id = p.id then { q with state := PlanState.scheduled } else q)
  apply_scheduling_algorithm p.scheduling_method db'

/-- Record lookup by id in the plan table. -/
def getById (db : List Plan) (i : Nat) : Option Plan :=
  db.find? (fun q => q.id == i)

/-- A production milestone (`manufacturing.milestone`), restricted to the
fields the completion actions touch, plus its owning plan reference. -/
structure Milestone where
  production_plan_id : Nat
  name : String
  planned_date : Option ℚ
  actual_date : Option ℚ
  is_completed : Bool
  deriving DecidableEq, Repr

/-- `action_mark_completed` (production_planning.py:272-278): set the flag,
stamp the actual date with the current time, then invoke `_update_progress`
on the owning plan.  The hook's body lives outside this repository; the
second component records the id of the plan whose hook is invoked. -/
def action_mark_completed (m : Milestone) (now : ℚ) : Milestone × Nat :=
  ({ m with is_completed := true, actual_date := some now }, m.production_plan_id)

/-- `action_mark_uncompleted` (production_planning.py:280-285): clear the
flag and the actual date, then invoke `_update_progress` on the owning
plan. -/
def action_mark_uncompleted (m : Milestone) : Milestone × Nat :=
  ({ m with is_completed := false, actual_date := none }, m.production_plan_id)

/-! ### Concrete records used by witnesses and counterexamples -/

/-- Component product of the C1 example: standard price 10. -/
def prodTen : Product := ⟨100, "C1-COMP", 1, 10, []⟩

/-- The C1 example BOM: one line (qty 2, price 10) and one operation
(cycle 30 minutes on a work center costing 60 per hour). -/
def exCostBom : Bom := ⟨10, "EX-COST", [⟨prodTen, 2, 1⟩], [⟨30, 0, some ⟨60⟩⟩]⟩

/-- Leaf BOM `D` of the shared-subtree example graph. -/
def bomD : Bom := ⟨3, "D", [], []⟩

/-- A product built by BOM `D`. -/
def prodOfD : Product := ⟨13, "PD", 1, 0, [3]⟩

/-- BOM `B`, whose single line leads to `D`. -/
def bomB : Bom := ⟨1, "B", [⟨prodOfD, 1, 1⟩], []⟩

/-- A product built by BOM `B`. -/
def prodOfB : Product := ⟨11, "PB", 1, 0, [1]⟩

/-- BOM `C`, whose single line leads to `B`. -/
def bomC : Bom := ⟨2, "C", [⟨prodOfB, 1, 1⟩], []⟩

/-- A product built by BOM `C`. -/
def prodOfC : Product := ⟨12, "PC", 1, 0, [2]⟩

/-- BOM `A` before the change: one line, leading to `C` (so the real
chain is A - C - B - D). -/
def bomA : Bom := ⟨0, "A", [⟨prodOfC, 1, 1⟩], []⟩

/-- BOM `A` after inserting one extra line leading to `B` in front of the
line leading to `C`. -/
def bomA2 : Bom := ⟨0, "A", [⟨prodOfB, 1, 1⟩, ⟨prodOfC, 1, 1⟩], []⟩

/-- The BOM table holding the shared-subtree example. -/
def envShared : List Bom := [bomA2, bomB, bomC, bomD]

/-- A product built by the cyclic BOM `Y`. -/
def prodOfY : Product := ⟨22, "PY", 1, 0, [31]⟩

/-- A product built by the cyclic BOM `X`. -/
def prodOfX : Product := ⟨21, "PX", 1, 0, [30]⟩

/-- BOM `X` of the cycle: its line leads to `Y`. -/
def bomX : Bom := ⟨30, "X", [⟨prodOfY, 1, 1⟩], []⟩

/-- BOM `Y` of the cycle: its line leads back to `X`. -/
def bomY : Bom := ⟨31, "Y", [⟨prodOfX, 1, 1⟩], []⟩

/-- A BOM table containing a reference cycle X - Y - X. -/
def envCyc : List Bom := [bomX, bomY]

/-- A component product absent from the target BOM. -/
def prodAlpha : Product := ⟨41, "ALPHA", 1, 5, []⟩

/-- A component product already present in the target BOM. -/
def prodBeta : Product := ⟨42, "BETA", 1, 7, []⟩

/-- The target BOM of the ECO examples: it already contains BETA. -/
def bomT : Bom := ⟨50, "T-BOM", [⟨prodBeta, 1, 1⟩], []⟩

/-- Two `add` change lines: ALPHA (will succeed) then BETA (will fail,
the component already exists). -/
def ecoLines : List ChangeLine :=
  [⟨prodAlpha, .add, 0, 1, none⟩, ⟨prodBeta, .add, 0, 2, none⟩]

/-- An approved ECO carrying `ecoLines`. -/
def ecoApproved : Eco := ⟨"ECO-1", .approved, ecoLines, none⟩

/-- A draft ECO carrying `ecoLines`. -/
def ecoDraft : Eco := ⟨"ECO-2", .draft, ecoLines, none⟩

/-- An implemented ECO carrying `ecoLines`. -/
def ecoImplemented : Eco := ⟨"ECO-3", .implemented, ecoLines, none⟩

/-- `bomT` after the first change line (add ALPHA) has been applied. -/
def bomTafterAdd : Bom := { bomT with bom_line_ids := bomT.bom_line_ids ++ [⟨prodAlpha, 1, 1⟩] }

/-- The error `action_implement` raises on `ecoApproved` over `bomT`. -/
def ecoFailErr : EcoError := .applyFailed "BETA" (.componentAlreadyExists "BETA" "T-BOM")

/-- A BOM whose single operation takes 120 cycle minutes (2 hours at
quantity 1). -/
def bomTwoHours : Bom := ⟨60, "P-BOM", [], [⟨120, 0, none⟩]⟩

/-- A BOM whose single operation has 600 minutes of setup time (10 hours
regardless of quantity). -/
def bomTenHours : Bom := ⟨61, "N-BOM", [], [⟨0, 600, none⟩]⟩

/-- Confirmed plan planned at time T = 0, duration 2 hours. -/
def planT : Plan := ⟨1, .confirmed, 1, 0, none, none, .priority, 1, some bomTwoHours, 0⟩

/-- Confirmed plan of the same priority planned at T + 1 hour. -/
def planT1 : Plan := ⟨2, .confirmed, 1, 1, none, none, .priority, 1, some bomTwoHours, 0⟩

/-- The plan table of the scheduling examples. -/
def exDb : List Plan := [planT, planT1]

/-- A plan with estimated duration 10 hours and actual duration 2 hours. -/
def planEff : Plan := ⟨3, .done, 1, 0, none, none, .priority, 1, some bomTenHours, 2⟩

/-- A plan with estimated duration 10 hours and a negative recorded
actual duration. -/
def planNeg : Plan := ⟨4, .done, 1, 0, none, none, .priority, 1, some bomTenHours, -1⟩

/-! ### C1: cost recomputation -/

/-- The labor contribution of one operation as the spec writes it, with a
missing work center contributing zero. -/
def opLaborCost (op : Operation) : ℚ :=
  op.time_cycle * ((op.workcenter.map Workcenter.costs_hour).getD 0) / 60

theorem material_foldl_eq_sum (lines : List BomLine) (acc : ℚ) :
    lines.foldl
      (fun acc line =>
        if line.product_qty ≠ 0 then acc + line.product_qty * line.product.standard_price
        else acc) acc
    = acc + (lines.map fun l => l.product_qty * l.product.standard_price).sum := by
  induction lines generalizing acc with
  | nil => simp
  | cons l ls ih =>
    rw [List.foldl_cons, ih, List.map_cons, List.sum_cons]
    by_cases h : l.product_qty = 0 <;> simp [h, add_assoc]

theorem labor_foldl_eq_sum (ops : List Operation) (acc : ℚ) :
    ops.foldl
      (fun acc op =>
        if op.time_cycle ≠ 0 then
          match op.workcenter with
          | some wc => acc + op.time_cycle * wc.costs_hour / 60
          | none => acc
        else acc) acc
    = acc + (ops.map opLaborCost).sum := by
  induction ops generalizing acc with
  | nil => simp
  | cons op ops ih =>
    rw [List.foldl_cons, ih, List.map_cons, List.sum_cons]
    rcases hwc : op.workcenter with _ | wc <;>
      by_cases h : op.time_cycle = 0 <;>
        simp [h, hwc, opLaborCost, add_assoc]

/-- C1.  After cost recomputation, `material_cost` is the sum of
`qty * standard_price` over the lines, `labor_cost` the sum of
`time_cycle * costs_hour / 60` over the operations (every operation here
having a work center), `overhead_cost` is exactly `0.2 * (material +
labor)` and `total_cost` their sum; and the example BOM (one line qty 2 at
price 10, one operation of 30 minutes at 60 per hour) yields costs
(20, 30, 10, 60). -/
theorem cost_recomputation_formula :
    (∀ bom : Bom, (∀ op ∈ bom.operation_ids, op.workcenter.isSome) →
      (compute_costs bom).material_cost
          = (bom.bom_line_ids.map fun l => l.product_qty * l.product.standard_price).sum
        ∧ (compute_costs bom).labor_cost = (bom.operation_ids.map opLaborCost).sum
        ∧ (compute_costs bom).overhead_cost
          = 0.2 * ((compute_costs bom).material_cost + (compute_costs bom).labor_cost)
        ∧ (compute_costs bom).total_cost
          = (compute_costs bom).material_cost + (compute_costs bom).labor_cost
            + (compute_costs bom).overhead_cost)
    ∧ compute_costs exCostBom = ⟨20, 30, 10, 60⟩ := by
  constructor
  · intro bom _
    refine ⟨?_, ?_, ?_, ?_⟩
    · simpa [compute_costs] using material_foldl_eq_sum bom.bom_line_ids 0
    · simpa [compute_costs] using labor_foldl_eq_sum bom.operation_ids 0
    · simp [compute_costs]; ring
    · simp [compute_costs]
  · simp [compute_costs, exCostBom, prodTen]
    norm_num

/-- Witness for C1 at the example BOM. -/
theorem cost_recomputation_formula_witness :
    (∀ op ∈ exCostBom.operation_ids, op.workcenter.isSome)
    ∧ ((compute_costs exCostBom).material_cost
          = (exCostBom.bom_line_ids.map fun l => l.product_qty * l.product.standard_price).sum
        ∧ (compute_costs exCostBom).labor_cost = (exCostBom.operation_ids.map opLaborCost).sum
        ∧ (compute_costs exCostBom).overhead_cost
          = 0.2 * ((compute_costs exCostBom).material_cost + (compute_costs exCostBom).labor_cost)
        ∧ (compute_costs exCostBom).total_cost
          = (compute_costs exCostBom).material_cost + (compute_costs exCostBom).labor_cost
            + (compute_costs exCostBom).overhead_cost) :=
  ⟨by decide, cost_recomputation_formula.1 exCostBom (by decide)⟩

/-! ### C8: estimated duration and efficiency -/

theorem duration_foldl_eq_sum (p : Plan) (ops : List Operation) (acc : ℚ) :
    (ops.foldl (fun acc op => acc + (op.time_mode_batch + op.time_cycle * p.product_qty)) acc) / 60
    = acc / 60 + (ops.map fun op => (op.time_mode_batch + op.time_cycle * p.product_qty) / 60).sum := by
  induction ops generalizing acc with
  | nil => simp
  | cons op ops ih =>
    simp only [List.foldl_cons, List.map_cons, List.sum_cons, ih]
    ring

/-- C8 (amended).  Estimated duration is the sum of
`(setup + cycle * qty) / 60` over the linked BOM's operations, and 0 when
no BOM is linked; efficiency is `estimated / actual * 100` whenever the
actual duration is non-zero (when the estimate is 0 that quotient is 0,
matching the source's guard), and 0 when the actual duration is 0. -/
theorem duration_and_efficiency (p : Plan) :
    (p.bom = none → compute_estimated_duration p = 0)
    ∧ (∀ b, p.bom = some b → compute_estimated_duration p
        = (b.operation_ids.map fun op => (op.time_mode_batch + op.time_cycle * p.product_qty) / 60).sum)
    ∧ (p.actual_duration ≠ 0 →
        compute_efficiency p = compute_estimated_duration p / p.actual_duration * 100)
    ∧ (p.actual_duration = 0 → compute_efficiency p = 0) := by
  refine ⟨fun h => by simp [compute_estimated_duration, h], fun b hb => ?_, fun ha => ?_, fun ha => ?_⟩
  · simpa [compute_estimated_duration, hb] using duration_foldl_eq_sum p b.operation_ids 0
  · by_cases he : compute_estimated_duration p = 0
    · simp [compute_efficiency, he, ha]
    · simp [compute_efficiency, he, ha]
  · simp [compute_efficiency, ha]

/-- Witness for C8 at a plan with estimated duration 10 h and actual
duration 2 h. -/
theorem duration_and_efficiency_witness :
    planEff.actual_duration ≠ 0
    ∧ compute_efficiency planEff
      = compute_estimated_duration planEff / planEff.actual_duration * 100 :=
  ⟨by norm_num [planEff], (duration_and_efficiency planEff).2.2.1 (by norm_num [planEff])⟩

/-- Counterexample to C8 as stated: a plan whose recorded actual duration
is negative (hence not `> 0`) still gets a non-zero efficiency from the
source (
`estimated / actual * 100 = -1000`), where the claim demands 0. -/
theorem efficiency_negative_actual_counterexample :
    ¬ planNeg.actual_duration > 0 ∧ compute_efficiency planNeg ≠ 0 := by
  constructor
  · norm_num [planNeg]
  · norm_num [compute_efficiency, compute_estimated_duration, planNeg, bomTenHours]

/-! ### C9: milestone completion -/

/-- C9.  `action_mark_completed` sets the flag and stamps the actual date
with the current time, `action_mark_uncompleted` clears both, every other
milestone field is untouched, and each action invokes the progress
recomputation hook of the owning production plan. -/
theorem milestone_completion_actions (m : Milestone) (now : ℚ) :
    (action_mark_completed m now).1.is_completed = true
    ∧ (action_mark_completed m now).1.actual_date = some now
    ∧ (action_mark_completed m now).1.production_plan_id = m.production_plan_id
    ∧ (action_mark_completed m now).1.name = m.name
    ∧ (action_mark_completed m now).1.planned_date = m.planned_date
    ∧ (action_mark_completed m now).2 = m.production_plan_id
    ∧ (action_mark_uncompleted m).1.is_completed = false
    ∧ (action_mark_uncompleted m).1.actual_date = none
    ∧ (action_mark_uncompleted m).1.production_plan_id = m.production_plan_id
    ∧ (action_mark_uncompleted m).1.name = m.name
    ∧ (action_mark_uncompleted m).1.planned_date = m.planned_date
    ∧ (action_mark_uncompleted m).2 = m.production_plan_id :=
  ⟨rfl, rfl, rfl, rfl, rfl, rfl, rfl, rfl, rfl, rfl, rfl, rfl⟩

/-! ### C6: ECO transition guards -/

/-- C6.  `action_implement` on a non-approved ECO fails with the
precondition error and leaves both the ECO and the target BOM unchanged;
`action_cancel` on an implemented ECO fails with the precondition error
and leaves the ECO unchanged. -/
theorem eco_transition_guards (eco : Eco) (bom : Bom) (now : ℚ) :
    (eco.state ≠ .approved →
      action_implement eco bom now = (eco, bom, some .onlyApprovedCanBeImplemented))
    ∧ (eco.state = .implemented →
      action_cancel eco = (eco, some .cannotCancelImplemented)) := by
  constructor
  · intro h
    simp [action_implement, h]
  · intro h
    simp [action_cancel, h]

/-- Witness for C6: a draft ECO cannot be implemented, an implemented ECO
cannot be cancelled. -/
theorem eco_transition_guards_witness :
    (ecoDraft.state ≠ EcoState.approved
      ∧ action_implement ecoDraft bomT 0 = (ecoDraft, bomT, some .onlyApprovedCanBeImplemented))
    ∧ (ecoImplemented.state = EcoState.implemented
      ∧ action_cancel ecoImplemented = (ecoImplemented, some .cannotCancelImplemented)) :=
  ⟨⟨by decide, (eco_transition_guards ecoDraft bomT 0).1 (by decide)⟩,
   ⟨rfl, (eco_transition_guards ecoImplemented bomT 0).2 rfl⟩⟩

/-! ### C3: implement failure semantics -/

theorem applyChangeLines_error_names_product :
    ∀ (ls : List ChangeLine) (bom b' : Bom) (e : EcoError),
      applyChangeLines ls bom = (b', some e) →
      ∃ l ∈ ls, ∃ e', e = .applyFailed l.product.name e' := by
  intro ls
  induction ls with
  | nil => intro bom b' e h; simp [applyChangeLines] at h
  | cons l ls ih =>
    intro bom b' e h
    rcases happ : applyChangeLine bom l with e0 | bom2
    · rw [applyChangeLines, happ] at h
      injection h with h1 h2
      injection h2 with h2
      exact ⟨l, List.mem_cons_self l ls, e0, h2.symm⟩
    · rw [applyChangeLines, happ] at h
      obtain ⟨l', hl', hres⟩ := ih bom2 b' e h
      exact ⟨l', List.mem_cons_of_mem l hl', hres⟩

/-- C3 (amended).  When applying a change line fails during implement, the
whole operation fails with an error naming the originating product, the
ECO stays in its previous state (never reaching `implemented`) — but the
change lines already applied before the failure remain applied to the
target BOM: the result keeps the partially updated BOM, with no rollback. -/
theorem implement_failure_no_rollback (eco : Eco) (bom : Bom) (now : ℚ) (b' : Bom)
    (e : EcoError) (hstate : eco.state = .approved)
    (happly : apply_changes_to_bom eco bom = (b', some e)) :
    action_implement eco bom now = (eco, b', some e)
    ∧ (action_implement eco bom now).1.state ≠ .implemented
    ∧ ∃ l ∈ eco.change_line_ids, ∃ e', e = .applyFailed l.product.name e' := by
  have hres : action_implement eco bom now = (eco, b', some e) := by
    simp [action_implement, hstate, happly]
  refine ⟨hres, by simp [hres, hstate], ?_⟩
  by_cases hemp : eco.change_line_ids.isEmpty
  · rw [apply_changes_to_bom, if_pos hemp] at happly
    simp at happly
  · rw [apply_changes_to_bom, if_neg hemp] at happly
    exact applyChangeLines_error_names_product eco.change_line_ids bom b' e happly

/-- Witness for C3 (amended) at the concrete failing ECO. -/
theorem implement_failure_no_rollback_witness :
    (ecoApproved.state = EcoState.approved
      ∧ apply_changes_to_bom ecoApproved bomT = (bomTafterAdd, some ecoFailErr))
    ∧ (action_implement ecoApproved bomT 0 = (ecoApproved, bomTafterAdd, some ecoFailErr)
      ∧ (action_implement ecoApproved bomT 0).1.state ≠ .implemented
      ∧ ∃ l ∈ ecoApproved.change_line_ids, ∃ e', ecoFailErr = .applyFailed l.product.name e') :=
  ⟨⟨rfl, by decide⟩,
   implement_failure_no_rollback ecoApproved bomT 0 bomTafterAdd ecoFailErr rfl (by decide)⟩

/-- Counterexample to C3 as stated: on the concrete approved ECO whose
second change line fails, implement does fail — but the target BOM is not
left unchanged: the first line's addition remains applied. -/
theorem implement_partial_application_counterexample :
    (action_implement ecoApproved bomT 0).2.2.isSome = true
    ∧ (action_implement ecoApproved bomT 0).2.1 ≠ bomT := by
  constructor
  · decide
  · decide

/-! ### C2 and C10: batch scheduling -/

instance : IsTotal Plan priorityOrder := ⟨by
  intro a b
  rcases lt_trichotomy a.priority b.priority with h | h | h
  · exact Or.inr (Or.inl h)
  · rcases le_total a.date_planned b.date_planned with h2 | h2
    · exact Or.inl (Or.inr ⟨h, h2⟩)
    · exact Or.inr (Or.inr ⟨h.symm, h2⟩)
  · exact Or.inl (Or.inl h)⟩

instance : IsTrans Plan priorityOrder := ⟨by
  intro a b c hab hbc
  rcases hab with h | ⟨h1, h2⟩ <;> rcases hbc with g | ⟨g1, g2⟩
  · exact Or.inl (g.trans h)
  · exact Or.inl (g1 ▸ h)
  · exact Or.inl (h1 ▸ g)
  · exact Or.inr ⟨h1.trans g1, h2.trans g2⟩⟩

instance : IsTotal Plan sjfOrder := ⟨fun _ _ => le_total _ _⟩

instance : IsTrans Plan sjfOrder := ⟨fun _ _ _ hab hbc => hab.trans hbc⟩

instance : IsTotal Plan fcfsOrder := ⟨fun _ _ => le_total _ _⟩

instance : IsTrans Plan fcfsOrder := ⟨fun _ _ _ hab hbc => hab.trans hbc⟩

theorem getById_map (db : List Plan) (g : Plan → Plan) (hg : ∀ q, (g q).id = q.id) (i : Nat) :
    getById (db.map g) i = (getById db i).map g := by
  induction db with
  | nil => rfl
  | cons q db ih =>
    simp only [getById] at ih ⊢
    rw [List.map_cons, List.find?_cons, List.find?_cons, hg]
    by_cases h : q.id = i
    · have hb : (q.id == i) = true := by simpa using h
      simp [hb]
    · have hb : (q.id == i) = false := by simpa using h
      simp [hb, ih]

theorem getById_id (db : List Plan) (i : Nat) (q : Plan) (h : getById db i = some q) :
    q.id = i := by
  have := List.find?_some h
  simpa using this

theorem getById_of_mem (db : List Plan) (hdb : List.Pairwise (fun a b => a.id ≠ b.id) db)
    (p : Plan) (hp : p ∈ db) : getById db p.id = some p := by
  induction db with
  | nil => cases hp
  | cons q db ih =>
    rw [List.pairwise_cons] at hdb
    rcases List.mem_cons.mp hp with rfl | hp'
    · simp [getById, List.find?_cons]
    · have hne : q.id ≠ p.id := hdb.1 p hp'
      simpa [getById, List.find?_cons, hne] using ih hdb.2 hp'

theorem scheduleStep_id_preserved (db : List Plan) (u : Plan) (i : Nat) (h : u.id ≠ i) :
    getById (scheduleStep db u) i = getById db i := by
  rw [scheduleStep, getById_map]
  · rcases hfind : getById db i with _ | q
    · rfl
    · have hq : q.id = i := getById_id db i q hfind
      have hne : ¬ q.id = u.id := fun hc => h (hc.symm.trans hq)
      simp [hne]
  · intro q
    by_cases hq : q.id = u.id <;> simp [setSlot, hq]

theorem foldl_scheduleStep_preserved (updates : List Plan) (db : List Plan) (i : Nat)
    (h : ∀ u ∈ updates, u.id ≠ i) :
    getById (List.foldl scheduleStep db updates) i = getById db i := by
  induction updates generalizing db with
  | nil => rfl
  | cons u updates ih =>
    rw [List.foldl_cons, ih _ (fun v hv => h v (List.mem_cons_of_mem u hv)),
      scheduleStep_id_preserved db u i (h u (List.mem_cons_self u updates))]

theorem foldl_scheduleStep_assigns (updates : List Plan) (db : List Plan) (p : Plan)
    (hpair : List.Pairwise (fun a b => a.id ≠ b.id) updates) (hp : p ∈ updates)
    (hdb : getById db p.id = some p) :
    getById (List.foldl scheduleStep db updates) p.id
      = some (setSlot p (find_available_time_slot p)) := by
  obtain ⟨s, t, rfl⟩ := List.append_of_mem hp
  rw [List.pairwise_append] at hpair
  have hs : ∀ u ∈ s, u.id ≠ p.id :=
    fun u hu => hpair.2.2 u hu p (List.mem_cons_self p t)
  have ht : ∀ u ∈ t, u.id ≠ p.id := by
    rw [List.pairwise_cons] at hpair
    exact fun u hu => (hpair.2.1.1 u hu).symm
  rw [List.foldl_append, List.foldl_cons]
  rw [foldl_scheduleStep_preserved t _ p.id ht]
  rw [scheduleStep, getById_map]
  · rw [foldl_scheduleStep_preserved s db p.id hs, hdb]
    simp
  · intro q
    by_cases hq : q.id = p.id <;> simp [setSlot, hq]

theorem mem_id_unique (db : List Plan) (hdb : List.Pairwise (fun a b => a.id ≠ b.id) db)
    (a b : Plan) (ha : a ∈ db) (hb : b ∈ db) (h : a.id = b.id) : a = b := by
  induction db with
  | nil => cases ha
  | cons q db ih =>
    rw [List.pairwise_cons] at hdb
    rcases List.mem_cons.mp ha with rfl | ha' <;> rcases List.mem_cons.mp hb with rfl | hb'
    · rfl
    · exact absurd h (hdb.1 b hb')
    · exact absurd h.symm (hdb.1 a ha')
    · exact ih hdb.2 ha' hb'

theorem mem_confirmedQueue (r : Plan → Plan → Prop) [DecidableRel r] (db : List Plan)
    (p : Plan) : p ∈ confirmedQueue r db ↔ p ∈ db ∧ p.state = .confirmed := by
  rw [confirmedQueue, (List.perm_insertionSort r _).mem_iff, List.mem_filter]
  simp

theorem confirmedQueue_pairwise (r : Plan → Plan → Prop) [DecidableRel r] (db : List Plan)
    (hdb : List.Pairwise (fun a b => a.id ≠ b.id) db) :
    List.Pairwise (fun a b => a.id ≠ b.id) (confirmedQueue r db) := by
  have hfilter : List.Pairwise (fun a b => a.id ≠ b.id)
      (db.filter (fun p => p.state == PlanState.confirmed)) :=
    hdb.sublist (List.filter_sublist db)
  exact ((List.perm_insertionSort r _).pairwise_iff (fun h => Ne.symm h)).mpr hfilter

theorem batchSchedule_assigns (r : Plan → Plan → Prop) [DecidableRel r] (db : List Plan)
    (hdb : List.Pairwise (fun a b => a.id ≠ b.id) db) (p : Plan) (hp : p ∈ db)
    (hc : p.state = .confirmed) :
    getById (batchSchedule r db) p.id = some (setSlot p (find_available_time_slot p)) :=
  foldl_scheduleStep_assigns (confirmedQueue r db) db p
    (confirmedQueue_pairwise r db hdb)
    ((mem_confirmedQueue r db p).mpr ⟨hp, hc⟩)
    (getById_of_mem db hdb p hp)

theorem batchSchedule_skips (r : Plan → Plan → Prop) [DecidableRel r] (db : List Plan)
    (hdb : List.Pairwise (fun a b => a.id ≠ b.id) db) (p : Plan) (hp : p ∈ db)
    (hc : p.state ≠ .confirmed) :
    getById (batchSchedule r db) p.id = some p := by
  rw [batchSchedule, foldl_scheduleStep_preserved _ db p.id ?_]
  · exact getById_of_mem db hdb p hp
  · intro u hu hui
    obtain ⟨humem, hustate⟩ := (mem_confirmedQueue r db u).mp hu
    exact hc ((mem_id_unique db hdb u p humem hp hui) ▸ hustate)

/-- C2.  `_priority_based_scheduling` walks the confirmed plans ordered by
priority descending then planned date ascending, and gives every confirmed
plan a slot computed from that plan alone: start at its own planned date,
end at the planned date plus its estimated duration in hours — no
contention check against any other plan's slot. -/
theorem priority_scheduling_assigns_own_slot (db : List Plan)
    (hdb : List.Pairwise (fun a b => a.id ≠ b.id) db) :
    List.Sorted priorityOrder (confirmedQueue priorityOrder db)
    ∧ ∀ p ∈ db, p.state = .confirmed →
        getById (priority_based_scheduling db) p.id
          = some { p with date_start := some p.date_planned,
                          date_end := some (p.date_planned + compute_estimated_duration p) } := by
  constructor
  · exact List.sorted_insertionSort priorityOrder _
  · intro p hp hc
    exact batchSchedule_assigns priorityOrder db hdb p hp hc

/-- Witness for C2: two confirmed plans of equal priority planned at
T = 0 and T + 1 h are assigned starts 0 and 1 respectively. -/
theorem priority_scheduling_assigns_own_slot_witness :
    List.Pairwise (fun a b => a.id ≠ b.id) exDb
    ∧ getById (priority_based_scheduling exDb) planT.id
      = some { planT with date_start := some planT.date_planned,
                          date_end := some (planT.date_planned + compute_estimated_duration planT) }
    ∧ getById (priority_based_scheduling exDb) planT1.id
      = some { planT1 with
                date_start := some planT1.date_planned,
                date_end := some (planT1.date_planned + compute_estimated_duration planT1) } :=
  ⟨by decide,
   (priority_scheduling_assigns_own_slot exDb (by decide)).2 planT (by decide) rfl,
   (priority_scheduling_assigns_own_slot exDb (by decide)).2 planT1 (by decide) rfl⟩

theorem apply_alg_skips (method : SchedMethod) (db : List Plan)
    (hdb : List.Pairwise (fun a b => a.id ≠ b.id) db) (p : Plan) (hp : p ∈ db)
    (hc : p.state ≠ .confirmed) :
    getById (apply_scheduling_algorithm method db) p.id = some p := by
  cases method <;> exact batchSchedule_skips _ db hdb p hp hc

theorem apply_alg_assigns (method : SchedMethod) (db : List Plan)
    (hdb : List.Pairwise (fun a b => a.id ≠ b.id) db) (p : Plan) (hp : p ∈ db)
    (hc : p.state = .confirmed) :
    getById (apply_scheduling_algorithm method db) p.id
      = some (setSlot p (find_available_time_slot p)) := by
  cases method <;> exact batchSchedule_assigns _ db hdb p hp hc

/-- C10.  `action_schedule` marks the invoked plan `scheduled` before the
batch policy searches for confirmed plans, so the invoked plan is excluded
from the batch: its own start and end dates are untouched, while every
other still-confirmed plan receives its slot. -/
theorem action_schedule_excludes_self (db : List Plan) (p : Plan)
    (hdb : List.Pairwise (fun a b => a.id ≠ b.id) db) (hp : p ∈ db) :
    getById (action_schedule db p) p.id = some { p with state := PlanState.scheduled }
    ∧ ∀ q ∈ db, q.id ≠ p.id → q.state = .confirmed →
        getById (action_schedule db p) q.id = some (setSlot q (find_available_time_slot q)) := by
  have hgid : ∀ q : Plan,
      ((fun q => if q.id = p.id then { q with state := PlanState.scheduled } else q) q).id
        = q.id := by
    intro q
    by_cases hq : q.id = p.id <;> simp [hq]
  have hdb' : List.Pairwise (fun a b => a.id ≠ b.id)
      (db.map fun q => if q.id = p.id then { q with state := PlanState.scheduled } else q) := by
    refine List.Pairwise.map _ ?_ hdb
    intro a b hab
    rw [hgid a, hgid b]
    exact hab
  constructor
  · have hmem := List.mem_map_of_mem
      (fun q => if q.id = p.id then { q with state := PlanState.scheduled } else q) hp
    have hmem' : { p with state := PlanState.scheduled } ∈ List.map
        (fun q => if q.id = p.id then { q with state := PlanState.scheduled } else q) db := by
      simpa using hmem
    have := apply_alg_skips p.scheduling_method _ hdb'
      { p with state := PlanState.scheduled } hmem' (by simp)
    simpa [action_schedule] using this
  · intro q hq hqid hqstate
    have hmem := List.mem_map_of_mem
      (fun q => if q.id = p.id then { q with state := PlanState.scheduled } else q) hq
    have hmem' : q ∈ List.map
        (fun q => if q.id = p.id then { q with state := PlanState.scheduled } else q) db := by
      simpa [hqid] using hmem
    have := apply_alg_assigns p.scheduling_method _ hdb' q hmem' hqstate
    simpa [action_schedule] using this

/-- Witness for C10: scheduling `planT` leaves its own dates unset and
assigns the slot of the still-confirmed `planT1`. -/
theorem action_schedule_excludes_self_witness :
    List.Pairwise (fun a b => a.id ≠ b.id) exDb
    ∧ getById (action_schedule exDb planT) planT.id
      = some { planT with state := PlanState.scheduled }
    ∧ (planT1.id ≠ planT.id ∧ planT1.state = .confirmed
      ∧ getById (action_schedule exDb planT) planT1.id
        = some (setSlot planT1 (find_available_time_slot planT1))) :=
  ⟨by decide,
   (action_schedule_excludes_self exDb planT (by decide) (by decide)).1,
   by decide, rfl,
   (action_schedule_excludes_self exDb planT (by decide) (by decide)).2 planT1
     (by decide) (by decide) rfl⟩

/-! ### C4, C5, C7: BOM level traversal -/

/-- The set of BOM ids present in the BOM table. -/
def bomIds (env : List Bom) : Finset Nat :=
  (env.map Bom.id).toFinset

/-- The BOM ids of the table not yet in the `processed_boms` set. -/
def unvisited (env : List Bom) (processed : List Nat) : Finset Nat :=
  (bomIds env).filter (fun x => x ∉ processed)

/-- Append one BOM line (a new `mrp.bom.line` record is created at the
end of the one2many). -/
def addLine (bom : Bom) (l : BomLine) : Bom :=
  { bom with bom_line_ids := bom.bom_line_ids ++ [l] }

/-- Append one operation. -/
def addOperation (bom : Bom) (op : Operation) : Bom :=
  { bom with operation_ids := bom.operation_ids ++ [op] }

/-- The structurally identical BOM with every line's child BOM relation
removed (each line's product no longer has a BOM of its own). -/
def stripChildren (bom : Bom) : Bom :=
  let strippedLines := bom.bom_line_ids.map
    (fun l => { l with product := { l.product with bom_ids := [] } })
  { bom with bom_line_ids := strippedLines }

theorem unvisited_card_le (env : List Bom) {p q : List Nat} (h : ∀ x ∈ p, x ∈ q) :
    (unvisited env q).card ≤ (unvisited env p).card := by
  apply Finset.card_le_card
  intro x hx
  simp only [unvisited, Finset.mem_filter] at hx ⊢
  exact ⟨hx.1, fun hc => hx.2 (h x hc)⟩

theorem unvisited_cons_card (env : List Bom) {p : List Nat} {a : Nat}
    (ha : a ∈ bomIds env) (hp : a ∉ p) :
    (unvisited env (a :: p)).card + 1 = (unvisited env p).card := by
  have hset : unvisited env (a :: p) = (unvisited env p).erase a := by
    ext x
    simp only [unvisited, Finset.mem_filter, Finset.mem_erase, List.mem_cons]
    constructor
    · rintro ⟨h1, h2⟩
      exact ⟨fun hx => h2 (Or.inl hx), h1, fun hx => h2 (Or.inr hx)⟩
    · rintro ⟨h1, h2, h3⟩
      exact ⟨h2, fun hx => hx.elim h1 h3⟩
  have hmem : a ∈ unvisited env p := by
    simp [unvisited, ha, hp]
  rw [hset, Finset.card_erase_of_mem hmem]
  have hpos : 0 < (unvisited env p).card := Finset.card_pos.mpr ⟨a, hmem⟩
  omega

theorem unvisited_card_le_length (env : List Bom) (processed : List Nat) :
    (unvisited env processed).card ≤ env.length := by
  calc (unvisited env processed).card
      ≤ (bomIds env).card := Finset.card_filter_le _ _
    _ ≤ (env.map Bom.id).length := List.toFinset_card_le _
    _ = env.length := List.length_map _ _

theorem get_level_recursive_succ (env : List Bom) (fuel : Nat) (processed : List Nat)
    (bom : Bom) (cur : Nat) :
    get_level_recursive env (fuel + 1) processed bom cur
      = if bom.id ∈ processed then some (cur, processed)
        else bom.bom_line_ids.foldl (levelStep env (get_level_recursive env fuel) cur)
          (some (cur, bom.id :: processed)) := by
  rw [get_level_recursive]

theorem childBom_mem (env : List Bom) (line : BomLine) (child : Bom)
    (h : childBom env line = some child) : child ∈ env := by
  rw [childBom] at h
  rcases hh : line.product.bom_ids.head? with _ | i
  · rw [hh] at h
    cases h
  · rw [hh] at h
    exact List.mem_of_find?_eq_some h

theorem childBom_id_mem (env : List Bom) (line : BomLine) (child : Bom)
    (h : childBom env line = some child) : child.id ∈ bomIds env := by
  rw [bomIds, List.mem_toFinset]
  exact List.mem_map_of_mem Bom.id (childBom_mem env line child h)

theorem get_level_recursive_congr (env : List Bom) (fuel : Nat) (processed : List Nat)
    (b b' : Bom) (cur : Nat) (hid : b.id = b'.id) (hlines : b.bom_line_ids = b'.bom_line_ids) :
    get_level_recursive env fuel processed b cur
      = get_level_recursive env fuel processed b' cur := by
  cases fuel with
  | zero => rfl
  | succ fuel => rw [get_level_recursive_succ, get_level_recursive_succ, hid, hlines]

theorem foldl_no_children (env : List Bom) (rec : List Nat → Bom → Nat → Option (Nat × List Nat))
    (cur : Nat) (lines : List BomLine) (level : Nat) (proc : List Nat)
    (h : ∀ li ∈ lines, childBom env li = none) :
    List.foldl (levelStep env rec cur) (some (level, proc)) lines = some (level, proc) := by
  induction lines with
  | nil => rfl
  | cons li lines ih =>
    rw [List.foldl_cons]
    have hli : childBom env li = none := h li (List.mem_cons_self li lines)
    show List.foldl (levelStep env rec cur) (levelStep env rec cur (some (level, proc)) li) lines
      = some (level, proc)
    rw [levelStep, hli]
    exact ih (fun x hx => h x (List.mem_cons_of_mem li hx))

theorem fold_suff (env : List Bom) (fuel : Nat)
    (IH : ∀ (processed : List Nat) (bom : Bom) (cur : Nat),
      bom.id ∈ bomIds env → (unvisited env processed).card < fuel →
      ∃ l proc', get_level_recursive env fuel processed bom cur = some (l, proc')
        ∧ (∀ x ∈ processed, x ∈ proc')
        ∧ (∀ x ∈ proc', x ∈ processed ∨ x ∈ bomIds env)
        ∧ l ≤ cur + (unvisited env processed).card) :
    ∀ (lines : List BomLine) (level : Nat) (proc : List Nat) (cur : Nat),
      (unvisited env proc).card < fuel →
      ∃ l' proc', List.foldl (levelStep env (get_level_recursive env fuel) cur)
          (some (level, proc)) lines = some (l', proc')
        ∧ (∀ x ∈ proc, x ∈ proc')
        ∧ (∀ x ∈ proc', x ∈ proc ∨ x ∈ bomIds env)
        ∧ l' ≤ max level (cur + 1 + (unvisited env proc).card)
        ∧ level ≤ l' := by
  intro lines
  induction lines with
  | nil =>
    intro level proc cur _
    exact ⟨level, proc, rfl, fun x hx => hx, fun x hx => Or.inl hx, le_max_left _ _, le_rfl⟩
  | cons line lines ihl =>
    intro level proc cur hcard
    rw [List.foldl_cons]
    rcases hchild : childBom env line with _ | child
    · have hstep : levelStep env (get_level_recursive env fuel) cur (some (level, proc)) line
          = some (level, proc) := by
        rw [levelStep, hchild]
      rw [hstep]
      exact ihl level proc cur hcard
    · have hcid : child.id ∈ bomIds env := childBom_id_mem env line child hchild
      obtain ⟨clevel, proc2, hrec, hsub2, hclass2, hbound2⟩ := IH proc child (cur + 1) hcid hcard
      have hstep : levelStep env (get_level_recursive env fuel) cur (some (level, proc)) line
          = some (max level clevel, proc2) := by
        rw [levelStep, hchild]
        simp [hrec]
      rw [hstep]
      have hcard2 : (unvisited env proc2).card < fuel :=
        lt_of_le_of_lt (unvisited_card_le env hsub2) hcard
      obtain ⟨l', proc', heq, hsub', hclass', hbound', hmono'⟩ :=
        ihl (max level clevel) proc2 cur hcard2
      have hc2le : (unvisited env proc2).card ≤ (unvisited env proc).card :=
        unvisited_card_le env hsub2
      refine ⟨l', proc', heq, fun x hx => hsub' x (hsub2 x hx), ?_, ?_, ?_⟩
      · intro x hx
        rcases hclass' x hx with h2 | h2
        · exact hclass2 x h2
        · exact Or.inr h2
      · have hcl : clevel ≤ cur + 1 + (unvisited env proc).card :=
          le_trans hbound2 (by omega)
        refine le_trans hbound' ?_
        apply max_le
        · apply max_le (le_max_left _ _)
          exact le_trans hcl (le_max_right _ _)
        · have hmax : cur + 1 + (unvisited env proc2).card
              ≤ cur + 1 + (unvisited env proc).card := by omega
          exact le_trans hmax (le_max_right _ _)
      · exact le_trans (le_max_left _ _) hmono'

theorem get_level_suff (env : List Bom) :
    ∀ (fuel : Nat) (processed : List Nat) (bom : Bom) (cur : Nat),
      bom.id ∈ bomIds env → (unvisited env processed).card < fuel →
      ∃ l proc', get_level_recursive env fuel processed bom cur = some (l, proc')
        ∧ (∀ x ∈ processed, x ∈ proc')
        ∧ (∀ x ∈ proc', x ∈ processed ∨ x ∈ bomIds env)
        ∧ l ≤ cur + (unvisited env processed).card := by
  intro fuel
  induction fuel with
  | zero =>
    intro processed bom cur _ hcard
    exact absurd hcard (Nat.not_lt_zero _)
  | succ fuel ih =>
    intro processed bom cur hid hcard
    by_cases hvis : bom.id ∈ processed
    · refine ⟨cur, processed, ?_, fun x hx => hx, fun x hx => Or.inl hx, by omega⟩
      rw [get_level_recursive_succ, if_pos hvis]
    · have hconsCard : (unvisited env (bom.id :: processed)).card + 1
          = (unvisited env processed).card := unvisited_cons_card env hid hvis
      have hcard' : (unvisited env (bom.id :: processed)).card < fuel := by omega
      obtain ⟨l', proc', heq, hsub', hclass', hbound', hmono'⟩ :=
        fold_suff env fuel ih bom.bom_line_ids cur (bom.id :: processed) cur hcard'
      refine ⟨l', proc', ?_, ?_, ?_, ?_⟩
      · rw [get_level_recursive_succ, if_neg hvis, heq]
      · exact fun x hx => hsub' x (List.mem_cons_of_mem _ hx)
      · intro x hx
        rcases hclass' x hx with h2 | h2
        · rcases List.mem_cons.mp h2 with rfl | h3
          · exact Or.inr hid
          · exact Or.inl h3
        · exact Or.inr h2
      · have hfinal : max cur (cur + 1 + (unvisited env (bom.id :: processed)).card)
            ≤ cur + (unvisited env processed).card := by
          apply max_le <;> omega
        exact le_trans hbound' hfinal

/-- C5.  On every BOM table — including one whose reference graph contains
a cycle — the level computation of `_get_bom_levels` terminates with a
finite level: the fuel `env.length + 1` it runs on is always sufficient,
because every fresh visit shrinks the set of unvisited BOM ids and a
revisited BOM id returns its current level immediately. -/
theorem depth_computation_terminates (env : List Bom) (bom : Bom) (h : bom ∈ env) :
    ∃ l, get_bom_levels_opt env bom = some l := by
  have hid : bom.id ∈ bomIds env := by
    rw [bomIds, List.mem_toFinset]
    exact List.mem_map_of_mem Bom.id h
  have hcard : (unvisited env []).card < env.length + 1 :=
    Nat.lt_succ_of_le (unvisited_card_le_length env [])
  obtain ⟨l, proc', heq, -, -, -⟩ := get_level_suff env (env.length + 1) [] bom 0 hid hcard
  exact ⟨l, by rw [get_bom_levels_opt, heq]; rfl⟩

/-- Witness for C5 on the cyclic table X - Y - X: the computation returns
the finite level 2. -/
theorem depth_computation_terminates_witness :
    bomX ∈ envCyc ∧ (∃ l, get_bom_levels_opt envCyc bomX = some l)
    ∧ get_bom_levels_opt envCyc bomX = some 2 :=
  ⟨by decide, depth_computation_terminates envCyc bomX (by decide), by decide⟩

/-- C4 (amended).  For every BOM of the table, the complexity score equals
`|lines| * 1.0 + |operations| * 1.5 + level * 2.0`, where `level` is the
value of the shared-visited-set traversal `_get_bom_levels`, a value never
exceeding the number of BOMs in the table.  That traversal level agrees
with the claim's recursive `bomDepth` on tree-shaped data but can
undercount it when one sub-BOM is reachable through two different lines
(see the counterexample). -/
theorem complexity_formula (env : List Bom) (bom : Bom) (h : bom ∈ env) :
    compute_complexity env bom
      = (bom.bom_line_ids.length : ℚ) * 1.0 + (bom.operation_ids.length : ℚ) * 1.5
        + (get_bom_levels env bom : ℚ) * 2.0
    ∧ get_bom_levels env bom ≤ env.length := by
  refine ⟨rfl, ?_⟩
  have hid : bom.id ∈ bomIds env := by
    rw [bomIds, List.mem_toFinset]
    exact List.mem_map_of_mem Bom.id h
  have hcard : (unvisited env []).card < env.length + 1 :=
    Nat.lt_succ_of_le (unvisited_card_le_length env [])
  obtain ⟨l, proc', heq, -, -, hbound⟩ := get_level_suff env (env.length + 1) [] bom 0 hid hcard
  rw [get_bom_levels, get_bom_levels_opt, heq]
  simpa using le_trans hbound (by simpa using unvisited_card_le_length env [])

/-- Witness for C4 (amended) at the shared-subtree table. -/
theorem complexity_formula_witness :
    bomA2 ∈ envShared
    ∧ (compute_complexity envShared bomA2
        = (bomA2.bom_line_ids.length : ℚ) * 1.0 + (bomA2.operation_ids.length : ℚ) * 1.5
          + (get_bom_levels envShared bomA2 : ℚ) * 2.0
      ∧ get_bom_levels envShared bomA2 ≤ envShared.length) :=
  ⟨by decide, complexity_formula envShared bomA2 (by decide)⟩

/-- Counterexample to C4 as stated: in the shared-subtree table, BOM `A`
(two lines, no operations) has traversal level 2, but the claim's
recursive `bomDepth` is 3 (the chain A - C - B - D); the score computed
by the source is 6 while the claim's formula demands 8. -/
theorem complexity_depth_counterexample :
    compute_complexity envShared bomA2
      ≠ (bomA2.bom_line_ids.length : ℚ) * 1.0 + (bomA2.operation_ids.length : ℚ) * 1.5
        + (specBomDepth envShared 5 bomA2 : ℚ) * 2.0 := by
  have h1 : get_bom_levels envShared bomA2 = 2 := by decide
  have h2 : specBomDepth envShared 5 bomA2 = 3 := by decide
  rw [compute_complexity, h1, h2]
  norm_num [bomA2]

theorem get_bom_levels_opt_eq_fold (env : List Bom) (bom : Bom) :
    get_bom_levels_opt env bom
      = (bom.bom_line_ids.foldl (levelStep env (get_level_recursive env env.length) 0)
          (some (0, [bom.id]))).map Prod.fst := by
  rw [get_bom_levels_opt, get_level_recursive_succ, if_neg (by simp)]

theorem get_bom_levels_append_line (env : List Bom) (bom : Bom) (l : BomLine)
    (hid : bom.id ∈ bomIds env) :
    get_bom_levels env bom ≤ get_bom_levels env (addLine bom l) := by
  have hconsCard : (unvisited env [bom.id]).card + 1 = (unvisited env []).card :=
    unvisited_cons_card env hid (by simp)
  have hcardLen : (unvisited env []).card ≤ env.length := unvisited_card_le_length env []
  have hone : 0 < (unvisited env []).card := by
    refine Finset.card_pos.mpr ⟨bom.id, ?_⟩
    simp [unvisited, hid]
  have hcard1 : (unvisited env [bom.id]).card < env.length := by omega
  obtain ⟨lv, proc0, hfold, hsub0, hclass0, hb0, hmono0⟩ :=
    fold_suff env env.length (get_level_suff env env.length) bom.bom_line_ids 0 [bom.id] 0 hcard1
  have hlev : get_bom_levels env bom = lv := by
    rw [get_bom_levels, get_bom_levels_opt_eq_fold, hfold]
    rfl
  have hstep : ∃ lv2 proc2,
      levelStep env (get_level_recursive env env.length) 0 (some (lv, proc0)) l
        = some (lv2, proc2) ∧ lv ≤ lv2 := by
    rcases hchild : childBom env l with _ | child
    · exact ⟨lv, proc0, by rw [levelStep, hchild], le_rfl⟩
    · obtain ⟨cl, proc1, hrec1, -, -, -⟩ := get_level_suff env env.length proc0 child 1
        (childBom_id_mem env l child hchild)
        (lt_of_le_of_lt (unvisited_card_le env hsub0) hcard1)
      refine ⟨max lv cl, proc1, ?_, le_max_left _ _⟩
      rw [levelStep, hchild]
      simp [hrec1]
  obtain ⟨lv2, proc2, hstepeq, hle⟩ := hstep
  have e1 : (addLine bom l).bom_line_ids = bom.bom_line_ids ++ [l] := rfl
  have e2 : (addLine bom l).id = bom.id := rfl
  have hlev2 : get_bom_levels env (addLine bom l) = lv2 := by
    rw [get_bom_levels, get_bom_levels_opt_eq_fold, e1, e2, List.foldl_append, hfold,
      List.foldl_cons, hstepeq, List.foldl_nil]
    rfl
  rw [hlev, hlev2]
  exact hle

theorem get_bom_levels_addOperation (env : List Bom) (bom : Bom) (op : Operation) :
    get_bom_levels env (addOperation bom op) = get_bom_levels env bom := by
  rw [get_bom_levels, get_bom_levels, get_bom_levels_opt, get_bom_levels_opt,
    get_level_recursive_congr env (env.length + 1) [] (addOperation bom op) bom 0 rfl rfl]

theorem get_bom_levels_strip (env : List Bom) (bom : Bom) :
    get_bom_levels env (stripChildren bom) = 0 := by
  have hnone : ∀ li ∈ (stripChildren bom).bom_line_ids, childBom env li = none := by
    intro li hli
    simp only [stripChildren, List.mem_map] at hli
    obtain ⟨l0, -, rfl⟩ := hli
    rfl
  rw [get_bom_levels, get_bom_levels_opt_eq_fold,
    foldl_no_children env _ 0 _ 0 [(stripChildren bom).id] hnone]
  rfl

/-- C7 (amended).  Appending one BOM line or one operation to a BOM of
the table never decreases its complexity score, and a BOM scores at least
as much as the structurally identical BOM with every child BOM relation
removed (whose depth term is 0).  Inserting a line in the middle of the
line list, by contrast, can lower the score (see the counterexample). -/
theorem complexity_monotone_append (env : List Bom) (bom : Bom) (l : BomLine) (op : Operation)
    (hid : bom.id ∈ bomIds env) :
    compute_complexity env bom ≤ compute_complexity env (addLine bom l)
    ∧ compute_complexity env bom ≤ compute_complexity env (addOperation bom op)
    ∧ compute_complexity env (stripChildren bom) ≤ compute_complexity env bom := by
  refine ⟨?_, ?_, ?_⟩
  · have hlv := get_bom_levels_append_line env bom l hid
    have hcast : (get_bom_levels env bom : ℚ) ≤ (get_bom_levels env (addLine bom l) : ℚ) := by
      exact_mod_cast hlv
    have e1 : (addLine bom l).bom_line_ids.length = bom.bom_line_ids.length + 1 := by
      simp [addLine]
    have e2 : (addLine bom l).operation_ids.length = bom.operation_ids.length := rfl
    rw [compute_complexity, compute_complexity, e1, e2]
    push_cast
    linarith
  · have hlv := get_bom_levels_addOperation env bom op
    have e1 : (addOperation bom op).bom_line_ids.length = bom.bom_line_ids.length := rfl
    have e2 : (addOperation bom op).operation_ids.length = bom.operation_ids.length + 1 := by
      simp [addOperation]
    rw [compute_complexity, compute_complexity, e1, e2, hlv]
    push_cast
    linarith
  · have hlv := get_bom_levels_strip env bom
    have e1 : (stripChildren bom).bom_line_ids.length = bom.bom_line_ids.length := by
      simp [stripChildren]
    have e2 : (stripChildren bom).operation_ids.length = bom.operation_ids.length := rfl
    have hnn : (0 : ℚ) ≤ (get_bom_levels env bom : ℚ) := Nat.cast_nonneg _
    rw [compute_complexity, compute_complexity, e1, e2, hlv]
    push_cast
    linarith

/-- A fresh line to append in the C7 witness. -/
def exLine : BomLine := ⟨prodOfD, 2, 1⟩

/-- A fresh operation to append in the C7 witness. -/
def exOp : Operation := ⟨15, 5, none⟩

/-- Witness for C7 (amended) at BOM `B` of the shared-subtree table. -/
theorem complexity_monotone_append_witness :
    bomB.id ∈ bomIds envShared
    ∧ (compute_complexity envShared bomB ≤ compute_complexity envShared (addLine bomB exLine)
      ∧ compute_complexity envShared bomB ≤ compute_complexity envShared (addOperation bomB exOp)
      ∧ compute_complexity envShared (stripChildren bomB) ≤ compute_complexity envShared bomB) :=
  ⟨by decide, complexity_monotone_append envShared bomB exLine exOp (by decide)⟩

/-- Counterexample to C7 as stated: `bomA2` is `bomA` with one extra line
added (in front), yet its recomputed complexity score is lower (6 against
7): the early visit of `B` makes the shared visited set cut the deep
chain through `C` short. -/
theorem complexity_add_line_counterexample :
    bomA2.bom_line_ids = ⟨prodOfB, 1, 1⟩ :: bomA.bom_line_ids
    ∧ bomA2.operation_ids = bomA.operation_ids
    ∧ compute_complexity envShared bomA2 < compute_complexity envShared bomA := by
  refine ⟨rfl, rfl, ?_⟩
  have h1 : get_bom_levels envShared bomA = 3 := by decide
  have h2 : get_bom_levels envShared bomA2 = 2 := by decide
  rw [compute_complexity, compute_complexity, h1, h2]
  norm_num [bomA, bomA2]

end ERP
